import Mathlib

/-!
# Verification of the content-based movie recommendation engine

Shallow embedding of `src/backend/recommender.py` (class `MovieRecommender`)
over exact rational arithmetic, together with theorems checking the
natural-language specification against it.

Modelling conventions:

* A pandas `DataFrame` row becomes a `Movie` record; the corpus order of
  `movies_df` is the order of `Engine.movies`, so a positional index
  (`df.iloc[i]`) is a list position.
* The precomputed `cosine_sim` matrix is carried as a list of rows of
  rationals (floats are modelled by `ℚ`; claims under check do not depend
  on float rounding error).
* `self.indices` (`pd.Series(df.index, index=df['id']).drop_duplicates()`)
  is the id → position lookup; item ids are unique in the loaded corpus
  (spec §3 requires the index mapping to be a bijection), so the lookup is
  "first position whose movie has the id".
* Python's `sorted(..., key=k, reverse=True)` and `list.sort(key=k,
  reverse=True)` are stable descending sorts; they are modelled by
  `List.insertionSort r` with `r a b := k b ≤ k a`, which is stable with
  exactly the same tie behaviour (earlier element stays first).
* Python `round(x, 2)` is modelled by `round2`; the claims under check do
  not depend on the tie-breaking rule at exact half-cents, so Mathlib's
  `round` (half-up) stands in for CPython's float half-even rounding.
* `json.loads`-based extraction of genre names (an external library call)
  is modelled by carrying the parsed name list `genres_list` alongside the
  raw encoded string `genres`; no claim depends on the JSON decoding
  itself.
* `pandas.Series.str.contains(pat, case=False, na=False)` interprets `pat`
  as a regular expression (`re.search` with `re.IGNORECASE`).  The claims
  only exercise the fragment of patterns built from literal characters and
  the `.` metacharacter, and `parsePat`/`reSearch` model exactly that
  fragment.
-/

namespace MovieRec

/-- One row of the merged `movies_df` after `_preprocess_data`, restricted to
the columns the operations under verification read. -/
structure Movie where
  id : Int
  title : String
  overview : String
  /-- the raw encoded `genres` column (used by `filter_movies`' substring match) -/
  genres : String
  /-- the parsed genre names of `genres` (result of the `json.loads` extraction) -/
  genres_list : List String
  /-- the precomputed display string `genres_display` -/
  genres_display : String
  vote_average : ℚ
  vote_count : Int
  popularity : ℚ
  release_date : String
  runtime : Option Int
  revenue : Int
deriving Repr, DecidableEq, Inhabited

/-- The immutable engine state built once by `load_data`: the corpus and the
precomputed pairwise cosine-similarity matrix.  (`self.indices` is derived
from the corpus by `indexOf` below; `self.tfidf_matrix` is not read by any
query operation.) -/
structure Engine where
  movies : List Movie
  cosine_sim : List (List ℚ)
deriving Repr, DecidableEq

/-- `self.indices[movie_id]`: the internal dense position of an external id,
`none` when the id is absent (pandas raises `KeyError`, caught by the
caller). -/
def indexOf (st : Engine) (movieId : Int) : Option Nat :=
  ((st.movies.enum).find? (fun p => p.2.id == movieId)).map Prod.fst

/-- Row `idx` of `self.cosine_sim`. -/
def simRow (st : Engine) (idx : Nat) : List ℚ :=
  st.cosine_sim.getD idx []

/-- `self.cosine_sim[i][j]`. -/
def simAt (st : Engine) (i j : Nat) : ℚ :=
  (simRow st i).getD j 0

/-- Python `round(x, 2)`. -/
def round2 (q : ℚ) : ℚ :=
  (round (q * 100) : ℚ) / 100

/-- The comparison realised by `sorted(sim_scores, key=lambda x: x[1],
reverse=True)`: descending in the similarity component, earlier element kept
first on ties (stability of Python's sort). -/
def simDescLe (a b : Nat × ℚ) : Prop := b.2 ≤ a.2

instance : DecidableRel simDescLe :=
  fun a b => inferInstanceAs (Decidable (b.2 ≤ a.2))

instance : IsTotal (Nat × ℚ) simDescLe :=
  ⟨fun a b => le_total b.2 a.2⟩

instance : IsTrans (Nat × ℚ) simDescLe :=
  ⟨fun _ _ _ h1 h2 => le_trans h2 h1⟩

/-- `sorted(list(enumerate(self.cosine_sim[idx])), key=lambda x: x[1],
reverse=True)`. -/
def sortedSimScores (st : Engine) (idx : Nat) : List (Nat × ℚ) :=
  ((simRow st idx).enum).insertionSort simDescLe

/-- One recommendation dict produced by `get_recommendations`. -/
structure RecEntry where
  id : Int
  title : String
  overview : String
  genres : String
  vote_average : ℚ
  popularity : ℚ
  release_date : String
  /-- `round(float(score) * 100, 2)` -/
  similarity_score : ℚ
deriving Repr, DecidableEq

/-- Builds the recommendation dict for one `(position, similarity)` pair. -/
def mkRecEntry (st : Engine) (p : Nat × ℚ) : RecEntry :=
  let movie := st.movies.getD p.1 default
  { id := movie.id
    title := movie.title
    overview :=
      if movie.overview.length > 200 then movie.overview.take 200 ++ "..."
      else movie.overview
    genres := movie.genres_display
    vote_average := movie.vote_average
    popularity := movie.popularity
    release_date := movie.release_date
    similarity_score := round2 (p.2 * 100) }

/-- `get_recommendations(movie_id, top_n)`: look the id up, sort all
`(index, similarity)` pairs by descending similarity, keep slice
`[1 : top_n + 1]`, and format the corresponding movies.  An unknown id
raises `KeyError`, caught and turned into `None`. -/
def get_recommendations (st : Engine) (movie_id : Int) (top_n : Nat) :
    Option (List RecEntry) :=
  match indexOf st movie_id with
  | none => none
  | some idx =>
      some ((((sortedSimScores st idx).drop 1).take top_n).map (mkRecEntry st))

/-- One dict produced by `_format_single`. -/
structure FmtMovie where
  id : Int
  title : String
  overview : String
  genres : String
  vote_average : ℚ
  vote_count : Int
  popularity : ℚ
  release_date : String
  runtime : Option Int
deriving Repr, DecidableEq

/-- `_format_single(movie)` (overview truncated at 150 characters). -/
def format_single (m : Movie) : FmtMovie :=
  { id := m.id
    title := m.title
    overview :=
      if m.overview.length > 150 then m.overview.take 150 ++ "..." else m.overview
    genres := m.genres_display
    vote_average := m.vote_average
    vote_count := m.vote_count
    popularity := m.popularity
    release_date := m.release_date
    runtime := m.runtime }

/-- `_format_movies(df)`. -/
def format_movies (l : List Movie) : List FmtMovie :=
  l.map format_single

/-- Descending order on a rational key, ties kept in original corpus
order: the order of the `n < len` path of `Series.nlargest` (default
`keep='first'`: candidates `value ≥ kth value`, stable mergesort argsort of
the negated values, truncated to `n`). -/
def keyDescLe (f : Movie → ℚ) (a b : Movie) : Prop := f b ≤ f a

instance (f : Movie → ℚ) : DecidableRel (keyDescLe f) :=
  fun a b => inferInstanceAs (Decidable (f b ≤ f a))

instance (f : Movie → ℚ) : IsTotal Movie (keyDescLe f) :=
  ⟨fun a b => le_total (f b) (f a)⟩

instance (f : Movie → ℚ) : IsTrans Movie (keyDescLe f) :=
  ⟨fun _ _ _ h1 h2 => le_trans h2 h1⟩

/-- The full corpus stably sorted by descending key (ties ascending by
original position): `nlargest(n)`'s fast path is `take n` of this list. -/
def sortDescBy (f : Movie → ℚ) (l : List Movie) : List Movie :=
  l.insertionSort (keyDescLe f)

/-- Stable ascending order by key: the ascending argsort pandas
`sort_values` computes before reversing. -/
def keyAscLe (f : Movie → ℚ) (a b : Movie) : Prop := f a ≤ f b

instance (f : Movie → ℚ) : DecidableRel (keyAscLe f) :=
  fun a b => inferInstanceAs (Decidable (f a ≤ f b))

instance (f : Movie → ℚ) : IsTotal Movie (keyAscLe f) :=
  ⟨fun a b => le_total (f a) (f b)⟩

instance (f : Movie → ℚ) : IsTrans Movie (keyAscLe f) :=
  ⟨fun _ _ _ h1 h2 => le_trans h1 h2⟩

/-- `series.sort_values(ascending=False)`: pandas `nargsort` computes the
ascending argsort and reverses the *whole* indexer, so equal keys end up in
*descending* original position — the opposite tie order of the stable
`nlargest` fast path. -/
def sortValuesDesc (f : Movie → ℚ) (l : List Movie) : List Movie :=
  (l.insertionSort (keyAscLe f)).reverse

/-- `Series.nlargest(n)` (default `keep='first'`): for `n < len` the
`kth_smallest` + stable-mergesort path, i.e. the first `n` of the stable
descending order; for `n >= len` the `sort_values(ascending=False).head(n)`
fallback, whose tie order is reversed. -/
def nlargest (f : Movie → ℚ) (n : Nat) (l : List Movie) : List Movie :=
  if n < l.length then (sortDescBy f l).take n
  else (sortValuesDesc f l).take n

/-- `get_popular_movies(limit, offset)`:
`movies_df.nlargest(offset + limit, 'popularity').iloc[offset:offset + limit]`,
total = corpus size. -/
def get_popular_movies (st : Engine) (limit offset : Nat) :
    List FmtMovie × Nat :=
  let popular :=
    ((nlargest (·.popularity) (offset + limit) st.movies).drop offset).take limit
  (format_movies popular, st.movies.length)

/-- `get_top_rated_movies(limit, min_votes, offset)`: filter to
`vote_count >= min_votes`, `nlargest(offset + limit, 'vote_average')`, slice,
total = size of the filtered set. -/
def get_top_rated_movies (st : Engine) (limit : Nat) (min_votes : Int)
    (offset : Nat) : List FmtMovie × Nat :=
  let qualified := st.movies.filter (fun m => min_votes ≤ m.vote_count)
  let top_rated :=
    ((nlargest (·.vote_average) (offset + limit) qualified).drop offset).take limit
  (format_movies top_rated, qualified.length)

/-! ### The pattern fragment of `pandas.Series.str.contains`

`str.contains(pat, case=False, na=False)` matches `pat` as a regular
expression (`re.search`) case-insensitively.  The model covers the fragment
of patterns built from literal characters and the `.` metacharacter, on
which it agrees with `re.search`. -/

/-- A token of the modelled pattern fragment. -/
inductive RTok where
  | dot : RTok
  | lit : Char → RTok
deriving Repr, DecidableEq

/-- Compile a pattern string: `.` is the any-character metacharacter, every
other character a literal. -/
def parsePat (s : String) : List RTok :=
  s.data.map (fun c => if c = '.' then RTok.dot else RTok.lit c)

/-- One-token match, case-insensitive (`re.IGNORECASE`). -/
def tokMatch : RTok → Char → Bool
  | RTok.dot, _ => true
  | RTok.lit c, d => c.toLower == d.toLower

/-- Whether the whole pattern matches a prefix of `cs`. -/
def matchHere : List RTok → List Char → Bool
  | [], _ => true
  | _ :: _, [] => false
  | t :: ts, c :: cs => tokMatch t c && matchHere ts cs

/-- `re.search`: the pattern matches starting at some position. -/
def reSearch (pat : List RTok) : List Char → Bool
  | [] => matchHere pat []
  | c :: cs => matchHere pat (c :: cs) || reSearch pat cs

/-- `series.str.contains(pat, case=False, na=False)` applied to one cell. -/
def py_contains (pat s : String) : Bool :=
  reSearch (parsePat pat) s.data

/-- `search_movies(query, limit, offset)`: rows whose title matches the
query, sliced; total = match count before pagination. -/
def search_movies (st : Engine) (query : String) (limit offset : Nat) :
    List FmtMovie × Nat :=
  let all_results := st.movies.filter (fun m => py_contains query m.title)
  (format_movies ((all_results.drop offset).take limit), all_results.length)

/-- `get_all_genres()`: `sorted(list(set(...)))` over every parsed genre
name. -/
def get_all_genres (st : Engine) : List String :=
  (((st.movies.map (·.genres_list)).flatten).dedup).insertionSort (· ≤ ·)

/-- `get_movies_by_ids(movie_ids)`: select the rows whose id occurs in the
request, build the id → row map (later rows overwrite earlier ones), then
emit the requested ids in order, dropping unknown ones. -/
def get_movies_by_ids (st : Engine) (movie_ids : List Int) : List FmtMovie :=
  let subset := st.movies.filter (fun m => movie_ids.contains m.id)
  movie_ids.filterMap
    (fun mid => (subset.reverse.find? (fun m => m.id == mid)).map format_single)

/-! ### `filter_movies` -/

/-- Python truthiness of an optional string parameter (`if genre:`). -/
def truthyS : Option String → Bool
  | none => false
  | some s => !s.isEmpty

/-- Python truthiness of an optional integer parameter (`if year_from:`,
`if min_runtime:`); `0` is falsy. -/
def truthyI : Option Int → Bool
  | none => false
  | some v => v != 0

/-- `pd.to_numeric(release_date.str[:4], errors='coerce')` on one cell:
the leading four characters parsed as a number, `NaN` (here `none`) when
unparseable.  (The engine's dates carry four-digit year prefixes; signs and
decimal points in the prefix are out of the modelled corpus.) -/
def parseYear (s : String) : Option Int :=
  ((s.take 4).toNat?).map Int.ofNat

/-- The keyword arguments of `filter_movies`, with the Python defaults. -/
structure FilterParams where
  genre : Option String := none
  min_rating : ℚ := 0
  max_rating : ℚ := 10
  year_from : Option Int := none
  year_to : Option Int := none
  min_runtime : Option Int := none
  max_runtime : Option Int := none
  sort_by : String := "popularity"
  order : String := "desc"
  limit : Nat := 20
  offset : Nat := 0
deriving Repr, DecidableEq

/-- The sort column resolved by
`{'popularity': ..., 'rating': ..., ...}.get(sort_by, 'popularity')`. -/
inductive SortCol where
  | pop | rating | rel | rev | ttl
deriving Repr, DecidableEq

def sortColOf (sort_by : String) : SortCol :=
  if sort_by = "popularity" then SortCol.pop
  else if sort_by = "rating" then SortCol.rating
  else if sort_by = "release_date" then SortCol.rel
  else if sort_by = "revenue" then SortCol.rev
  else if sort_by = "title" then SortCol.ttl
  else SortCol.pop

/-- Ascending comparison on the resolved sort column (dates and titles
compare as strings, as pandas compares the object columns). -/
def colLe (k : SortCol) (a b : Movie) : Prop :=
  match k with
  | SortCol.pop => a.popularity ≤ b.popularity
  | SortCol.rating => a.vote_average ≤ b.vote_average
  | SortCol.rel => a.release_date ≤ b.release_date
  | SortCol.rev => a.revenue ≤ b.revenue
  | SortCol.ttl => a.title ≤ b.title

instance (k : SortCol) : DecidableRel (colLe k) := fun a b => by
  cases k <;> simp only [colLe] <;> infer_instance

/-- The order used by `filtered.sort_values(sort_col, ascending=ascending)`.
pandas' default quicksort is deterministic for a fixed input; the claims
under check need a fixed deterministic order per parameter set, which this
sort provides. -/
def sortValues (k : SortCol) (asc : Bool) (l : List Movie) : List Movie :=
  l.insertionSort (fun a b => if asc then colLe k a b else colLe k b a)

instance (k : SortCol) (asc : Bool) :
    DecidableRel (fun a b : Movie => if asc then colLe k a b else colLe k b a) :=
  fun a b => by by_cases h : asc <;> simp [h] <;> infer_instance

/-- The conjunctive filter chain of `filter_movies`, applied to the copied
dataframe (everything before `total = len(filtered)`). -/
def filterChain (st : Engine) (genre : Option String) (min_rating max_rating : ℚ)
    (year_from year_to min_runtime max_runtime : Option Int) : List Movie :=
  let filtered := st.movies
  let filtered := filtered.filter
    (fun m => decide (min_rating ≤ m.vote_average) &&
              decide (m.vote_average ≤ max_rating))
  let filtered :=
    if truthyS genre then
      filtered.filter (fun m => py_contains (genre.getD "") m.genres)
    else filtered
  let filtered :=
    if truthyI year_from || truthyI year_to then
      let f1 :=
        if truthyI year_from then
          filtered.filter (fun m =>
            match parseYear m.release_date with
            | some y => decide (year_from.getD 0 ≤ y)
            | none => false)
        else filtered
      if truthyI year_to then
        f1.filter (fun m =>
          match parseYear m.release_date with
          | some y => decide (y ≤ year_to.getD 0)
          | none => false)
      else f1
    else filtered
  let filtered :=
    if truthyI min_runtime then
      filtered.filter (fun m =>
        match m.runtime with
        | some r => decide (min_runtime.getD 0 ≤ r)
        | none => false)
    else filtered
  let filtered :=
    if truthyI max_runtime then
      filtered.filter (fun m =>
        match m.runtime with
        | some r => decide (r ≤ max_runtime.getD 0)
        | none => false)
    else filtered
  filtered

/-- The filter chain applied with a parameter record's fields. -/
def filteredOf (st : Engine) (p : FilterParams) : List Movie :=
  filterChain st p.genre p.min_rating p.max_rating p.year_from p.year_to
    p.min_runtime p.max_runtime

/-- The filtered rows sorted by the resolved column and direction. -/
def sortedFilteredOf (st : Engine) (p : FilterParams) : List Movie :=
  sortValues (sortColOf p.sort_by) (p.order == "asc") (filteredOf st p)

/-- `filter_movies(...)`: filter, record the pre-pagination count, sort,
slice. -/
def filter_movies (st : Engine) (p : FilterParams) : List FmtMovie × Nat :=
  let total := (filteredOf st p).length
  let page := ((sortedFilteredOf st p).drop p.offset).take p.limit
  (format_movies page, total)

/-! ### `because_you_liked` and `hybrid_recommendations` -/

/-- The recently-viewed ids that are present in the corpus. -/
def validOf (st : Engine) (movie_ids : List Int) : List Int :=
  movie_ids.filter (fun mid => (indexOf st mid).isSome)

/-- `movies_df[movies_df['id'] == source_id].iloc[0]['title']`. -/
def titleOf (st : Engine) (movieId : Int) : String :=
  ((st.movies.find? (fun m => m.id == movieId)).getD default).title

/-- `because_you_liked(movie_ids, top_n)`.  `random.choice(valid)` is
modelled by an explicit random-source parameter `pick` selecting
`valid[pick % len(valid)]` (spec §9 asks for an explicit random source; any
choice the library can make is some `pick`). -/
def because_you_liked (st : Engine) (movie_ids : List Int) (top_n : Nat)
    (pick : Nat) : Option String × Option (List RecEntry) :=
  let valid := validOf st movie_ids
  match valid with
  | [] => (none, none)
  | _ :: _ =>
      let source_id := valid.getD (pick % valid.length) 0
      let recs := get_recommendations st source_id top_n
      (some (titleOf st source_id), recs)

/-- `[mid for mid, score in user_ratings.items() if score >= 3.5]`. -/
def liked_ids (user_ratings : List (Int × ℚ)) : List Int :=
  (user_ratings.filter (fun p => decide ((35 : ℚ) / 10 ≤ p.2))).map Prod.fst

/-- `[mid for mid, score in user_ratings.items() if score < 3.0]`. -/
def disliked_ids (user_ratings : List (Int × ℚ)) : List Int :=
  (user_ratings.filter (fun p => decide (p.2 < 3))).map Prod.fst

/-- The `collab_boost` accumulation for one candidate: add the similarity to
each liked id found in the corpus, subtract half the similarity to each
disliked id found in the corpus; candidates absent from the index keep
boost `0.0`. -/
def collab_boost (st : Engine) (rec_id : Int) (user_ratings : List (Int × ℚ)) : ℚ :=
  match indexOf st rec_id with
  | none => 0
  | some rec_idx =>
      let afterLiked := (liked_ids user_ratings).foldl
        (fun acc lid =>
          match indexOf st lid with
          | some lidx => acc + simAt st rec_idx lidx
          | none => acc) (0 : ℚ)
      (disliked_ids user_ratings).foldl
        (fun acc did =>
          match indexOf st did with
          | some didx => acc - simAt st rec_idx didx * (5 / 10)
          | none => acc) afterLiked

/-- A recommendation dict after `rec['hybrid_score'] = ...`. -/
structure HybridEntry where
  base : RecEntry
  hybrid_score : ℚ
deriving Repr, DecidableEq

/-- The body of the scoring loop of `hybrid_recommendations` for one
candidate. -/
def scoreHybrid (st : Engine) (user_ratings : List (Int × ℚ)) (alpha : ℚ)
    (rec : RecEntry) : HybridEntry :=
  let boost := collab_boost st rec.id user_ratings
  let content_score := rec.similarity_score / 100
  let hybrid := alpha * content_score + (1 - alpha) * max 0 boost
  { base := rec, hybrid_score := round2 (hybrid * 100) }

/-- The comparison realised by
`content_recs.sort(key=lambda r: r['hybrid_score'], reverse=True)`. -/
def hybDescLe (a b : HybridEntry) : Prop := b.hybrid_score ≤ a.hybrid_score

instance : DecidableRel hybDescLe :=
  fun a b => inferInstanceAs (Decidable (b.hybrid_score ≤ a.hybrid_score))

/-- `hybrid_recommendations(movie_id, user_ratings, top_n, alpha)`: fetch a
`3 * top_n` content pool (`None` and the empty pool both fail the
`if not content_recs` check), attach hybrid scores, stable-sort by them
descending, truncate to `top_n`. -/
def hybrid_recommendations (st : Engine) (movie_id : Int)
    (user_ratings : List (Int × ℚ)) (top_n : Nat) (alpha : ℚ) :
    Option (List HybridEntry) :=
  match get_recommendations st movie_id (top_n * 3) with
  | none => none
  | some content_recs =>
      if content_recs.isEmpty then none
      else
        let scored := content_recs.map (scoreHybrid st user_ratings alpha)
        some ((scored.insertionSort hybDescLe).take top_n)

/-! ### The stateful query interface

Every query operation of the class reads `self.movies_df`, `self.cosine_sim`
and `self.indices` and writes only per-call fresh objects: `filter_movies`
assigns into `self.movies_df.copy()` (the `_year` column), the loop in
`hybrid_recommendations` assigns into the dicts freshly built by
`get_recommendations` in the same call and sorts that fresh list in place,
and every other operation only builds new lists/dicts.  `handle` threads the
engine state through a call explicitly so that this frame property is a
statement, not a convention. -/

/-- A request to one of the query operations. -/
inductive Request where
  | recommend (movie_id : Int) (top_n : Nat)
  | hybrid (movie_id : Int) (user_ratings : List (Int × ℚ)) (top_n : Nat) (alpha : ℚ)
  | liked (movie_ids : List Int) (top_n pick : Nat)
  | popular (limit offset : Nat)
  | topRated (limit : Nat) (min_votes : Int) (offset : Nat)
  | searchQ (query : String) (limit offset : Nat)
  | filterQ (p : FilterParams)
  | allGenres
  | byIds (movie_ids : List Int)
  | details (movie_id : Int)

/-- The response of one query operation. -/
inductive Response where
  | recs (r : Option (List RecEntry))
  | hybridRecs (r : Option (List HybridEntry))
  | likedRecs (r : Option String × Option (List RecEntry))
  | page (r : List FmtMovie × Nat)
  | names (r : List String)
  | movies (r : List FmtMovie)

/-- Dispatch one request against the engine state, returning the response
and the state after the call. -/
def handle (st : Engine) : Request → Response × Engine
  | Request.recommend movie_id top_n =>
      (Response.recs (get_recommendations st movie_id top_n), st)
  | Request.hybrid movie_id ur top_n alpha =>
      (Response.hybridRecs (hybrid_recommendations st movie_id ur top_n alpha), st)
  | Request.liked movie_ids top_n pick =>
      (Response.likedRecs (because_you_liked st movie_ids top_n pick), st)
  | Request.popular limit offset =>
      (Response.page (get_popular_movies st limit offset), st)
  | Request.topRated limit min_votes offset =>
      (Response.page (get_top_rated_movies st limit min_votes offset), st)
  | Request.searchQ query limit offset =>
      (Response.page (search_movies st query limit offset), st)
  | Request.filterQ p =>
      (Response.page (filter_movies st p), st)
  | Request.allGenres =>
      (Response.names (get_all_genres st), st)
  | Request.byIds movie_ids =>
      (Response.movies (get_movies_by_ids st movie_ids), st)
  | Request.details movie_id =>
      (Response.movies (format_movies
        ((st.movies.filter (fun m => m.id == movie_id)).take 1)), st)

/-! ### Concrete engines used as witnesses and counterexamples -/

/-- A movie with neutral metadata; the concrete engines below override the
fields a test reads. -/
def mkMovie (i : Int) (t : String) (pop va : ℚ) : Movie :=
  { id := i
    title := t
    overview := ""
    genres := ""
    genres_list := []
    genres_display := ""
    vote_average := va
    vote_count := 100
    popularity := pop
    release_date := "2001-01-01"
    runtime := some 100
    revenue := 0 }

/-- Two items with identical soups, hence identical unit TF-IDF vectors and
pairwise cosine similarity `1.0` everywhere (the matrix is symmetric, has
unit diagonal and entries in `[0, 1]`, as §3 requires). -/
def dupEngine : Engine :=
  { movies := [mkMovie 10 "A" 1 5, mkMovie 20 "B" 2 6]
    cosine_sim := [[1, 1], [1, 1]] }

/-- A one-item corpus: the only item has itself as its sole similarity
entry, so its neighbor list is empty. -/
def soloEngine : Engine :=
  { movies := [mkMovie 30 "C" 1 5]
    cosine_sim := [[1]] }

/-- A three-item corpus with pairwise-distinct similarities. -/
def triEngine : Engine :=
  { movies := [mkMovie 10 "A" 3 5, mkMovie 20 "B" 2 6, mkMovie 30 "C" 1 7]
    cosine_sim :=
      [[1, 7 / 10, 2 / 10],
       [7 / 10, 1, 4 / 10],
       [2 / 10, 4 / 10, 1]] }

/-- A one-item corpus whose single title is `abc`. -/
def abcEngine : Engine :=
  { movies := [mkMovie 1 "abc" 1 5]
    cosine_sim := [[1]] }

/-- Four items with identical popularity: the tie order of
`nlargest(n)` then depends on whether `n` reaches the corpus size. -/
def tiedEngine : Engine :=
  { movies := [mkMovie 1 "T1" 1 5, mkMovie 2 "T2" 1 6,
               mkMovie 3 "T3" 1 7, mkMovie 4 "T4" 1 8]
    cosine_sim := [] }

/-! ## Theorems

The two `Rat` kernel primitives below are `@[irreducible]` only as an
elaboration-performance guard; witness evaluation by `decide` needs them
unfolded. -/

set_option allowUnsafeReducibility true in
attribute [semireducible] Rat.add Rat.mul Rat.inv Rat.sub

/-- C1.  The spec states that `recommend(i, k)` never includes the query
item itself.  The code drops only the *first* entry of the tie-broken
descending sort (`sorted(...)[1:top_n+1]`), on the assumption that the
query item sorts first.  On a corpus with two items of identical soup
(pairwise similarity `1.0`), querying the second item puts the *first*
item at the head of the sort (ties break by ascending internal index), so
the dropped entry is the other item and the query item itself is returned:
with `dupEngine` and `k = 5`, `recommend(20, 5)` returns exactly item `20`.
This contradicts both the spec and the code's own comment
(`# Sort by similarity (excluding itself)`). -/
theorem self_recommended_on_duplicate :
    (indexOf dupEngine 20).isSome = true ∧
    ((get_recommendations dupEngine 20 5).getD []).map RecEntry.id = [20] := by
  decide

/-- C3.  An unknown item id yields `None` (NotFound), while any id present
in the index mapping yields `Some` list (possibly empty): the two result
variants are distinct constructors, so NotFound is distinguishable from
found-but-zero-neighbors. -/
theorem recommend_unknown_id_distinct (st : Engine) (movie_id : Int)
    (top_n : Nat) :
    (indexOf st movie_id = none →
      get_recommendations st movie_id top_n = none) ∧
    (∀ idx, indexOf st movie_id = some idx →
      get_recommendations st movie_id top_n =
        some ((((sortedSimScores st idx).drop 1).take top_n).map (mkRecEntry st))) := by
  constructor
  · intro h; simp [get_recommendations, h]
  · intro idx h; simp [get_recommendations, h]

/-- Witness for C3: on `dupEngine` the unknown id `99` reports NotFound,
while on the one-item corpus the known id `30` reports a found-but-empty
list. -/
theorem recommend_unknown_id_distinct_witness :
    get_recommendations dupEngine 99 5 = none ∧
    get_recommendations soloEngine 30 2 = some [] := by
  refine ⟨(recommend_unknown_id_distinct dupEngine 99 5).1 (by decide), ?_⟩
  rw [(recommend_unknown_id_distinct soloEngine 30 2).2 0 (by decide)]
  decide

/-- C8.  `because_you_liked` first keeps only the ids present in the
corpus; with none left it reports `(None, None)`, and otherwise (for every
possible random draw `pick`) the reported source is the title of one of the
remaining ids and the returned list is the plain content recommendation for
that source. -/
theorem because_you_liked_spec (st : Engine) (movie_ids : List Int)
    (top_n pick : Nat) :
    (validOf st movie_ids = [] →
      because_you_liked st movie_ids top_n pick = (none, none)) ∧
    (validOf st movie_ids ≠ [] →
      ∃ sid ∈ validOf st movie_ids,
        because_you_liked st movie_ids top_n pick =
          (some (titleOf st sid), get_recommendations st sid top_n)) := by
  constructor
  · intro h
    simp [because_you_liked, h]
  · intro h
    cases hv : validOf st movie_ids with
    | nil => exact absurd hv h
    | cons a t =>
        have hlt : pick % (a :: t).length < (a :: t).length :=
          Nat.mod_lt _ (by simp)
        refine ⟨(a :: t).getD (pick % (a :: t).length) 0, ?_, ?_⟩
        · rw [List.getD_eq_getElem _ _ hlt]
          exact List.getElem_mem hlt
        · simp only [because_you_liked, hv]

/-- Witness for C8: `[99, 10]` on `dupEngine` keeps only `10`, which is
reported as the source. -/
theorem because_you_liked_witness :
    ∃ sid ∈ validOf dupEngine [99, 10],
      because_you_liked dupEngine [99, 10] 5 0 =
        (some (titleOf dupEngine sid), get_recommendations dupEngine sid 5) :=
  (because_you_liked_spec dupEngine [99, 10] 5 0).2 (by decide)

/-- C9.  Every query operation leaves the engine state (corpus and
similarity matrix, hence also the derived index mapping) unchanged: the
state after any call equals the state before it. -/
theorem queries_preserve_state (st : Engine) (req : Request) :
    (handle st req).2 = st := by
  cases req <;> rfl

/-- C10.  Whatever the preferences and `alpha`, every item returned by
`hybrid_recommendations` comes from the `3 * top_n` content candidate pool
of the query item, and at most `top_n` entries are returned. -/
theorem hybrid_pool_bound (st : Engine) (movie_id : Int)
    (ur : List (Int × ℚ)) (top_n : Nat) (alpha : ℚ) (out : List HybridEntry)
    (_hk : 1 ≤ top_n)
    (h : hybrid_recommendations st movie_id ur top_n alpha = some out) :
    ∃ pool, get_recommendations st movie_id (top_n * 3) = some pool ∧
      out.length ≤ top_n ∧ ∀ e ∈ out, e.base ∈ pool := by
  unfold hybrid_recommendations at h
  cases hpool : get_recommendations st movie_id (top_n * 3) with
  | none => rw [hpool] at h; exact absurd h (by simp)
  | some pool =>
      rw [hpool] at h
      dsimp only at h
      by_cases he : pool.isEmpty
      · rw [if_pos he] at h; exact absurd h (by simp)
      · rw [if_neg he] at h
        injection h with h
        refine ⟨pool, rfl, ?_, ?_⟩
        · rw [← h]; exact List.length_take_le _ _
        · intro e he'
          rw [← h] at he'
          have hmem := List.mem_of_mem_take he'
          rw [List.mem_insertionSort] at hmem
          obtain ⟨r, hr, rfl⟩ := List.mem_map.mp hmem
          simpa [scoreHybrid] using hr

/-- Witness for C10 at `triEngine`, `k = 1`, `alpha = 1/2`. -/
theorem hybrid_pool_bound_witness :
    ∃ pool, get_recommendations triEngine 10 (1 * 3) = some pool ∧
      ((hybrid_recommendations triEngine 10 [] 1 (1 / 2)).getD []).length ≤ 1 ∧
      ∀ e ∈ (hybrid_recommendations triEngine 10 [] 1 (1 / 2)).getD [],
        e.base ∈ pool :=
  hybrid_pool_bound triEngine 10 [] 1 (1 / 2)
    ((hybrid_recommendations triEngine 10 [] 1 (1 / 2)).getD [])
    (by decide) (by decide)

/-! ### Rounding and sortedness helpers -/

theorem round2_round2 (x : ℚ) : round2 (round2 x) = round2 x := by
  unfold round2
  rw [div_mul_cancel₀ _ (by norm_num : (100 : ℚ) ≠ 0), round_intCast]

theorem round2_le_round2 {x y : ℚ} (h : x ≤ y) : round2 x ≤ round2 y := by
  unfold round2
  have h1 : round (x * 100) ≤ round (y * 100) := by
    rw [round_eq, round_eq]
    exact Int.floor_le_floor (by linarith)
  have h2 : ((round (x * 100) : ℚ)) ≤ ((round (y * 100) : ℚ)) := by
    exact_mod_cast h1
  linarith

/-- The sorted similarity list is sorted (non-increasing similarity). -/
theorem sortedSimScores_pairwise (st : Engine) (idx : Nat) :
    (sortedSimScores st idx).Pairwise simDescLe :=
  List.sorted_insertionSort simDescLe _

/-- The selected `(index, similarity)` pairs of a recommendation are sorted
by non-increasing similarity. -/
theorem selected_pairs_pairwise (st : Engine) (idx k : Nat) :
    (((sortedSimScores st idx).drop 1).take k).Pairwise simDescLe :=
  List.Pairwise.sublist
    ((List.take_sublist _ _).trans (List.drop_sublist _ _))
    (sortedSimScores_pairwise st idx)

/-- The formatted entries of a recommendation have non-increasing rounded
similarity scores. -/
theorem rec_entries_pairwise (st : Engine) (idx k : Nat) :
    ((((sortedSimScores st idx).drop 1).take k).map (mkRecEntry st)).Pairwise
      (fun x y => y.similarity_score ≤ x.similarity_score) := by
  refine List.Pairwise.map _ ?_ (selected_pairs_pairwise st idx k)
  intro a b hab
  simpa [mkRecEntry] using
    round2_le_round2 (mul_le_mul_of_nonneg_right hab (by norm_num))

/-! ### C4 and C5: hybrid scoring -/

/-- C4.  With `alpha = 1.0` and a non-empty content pool,
`hybrid_recommendations` returns exactly the items and order of plain
content recommendation with `hybrid_score` equal to the (already rounded)
`similarity_score`.  (The corrected precondition: with an *empty* content
pool — e.g. on a one-item corpus — hybrid ranking reports NotFound while
`recommend` reports an empty list; see the counterexample.) -/
theorem hybrid_alpha_one (st : Engine) (movie_id : Int)
    (ur : List (Int × ℚ)) (k : Nat) (pool : List RecEntry)
    (h : get_recommendations st movie_id (k * 3) = some pool)
    (hne : pool ≠ []) :
    get_recommendations st movie_id k = some (pool.take k) ∧
    hybrid_recommendations st movie_id ur k 1 =
      some ((pool.take k).map
        (fun r => { base := r, hybrid_score := r.similarity_score })) := by
  unfold get_recommendations at h
  cases hidx : indexOf st movie_id with
  | none => rw [hidx] at h; exact absurd h (by simp)
  | some idx =>
      rw [hidx] at h
      injection h with h
      have hk3 : min k (k * 3) = k :=
        Nat.min_eq_left (Nat.le_mul_of_pos_right k (by norm_num))
      have htake : get_recommendations st movie_id k = some (pool.take k) := by
        rw [← h, ← List.map_take, List.take_take, hk3]
        simp [get_recommendations, hidx]
      refine ⟨htake, ?_⟩
      unfold hybrid_recommendations
      rw [show get_recommendations st movie_id (k * 3) = some pool by
            rw [← h]; simp [get_recommendations, hidx]]
      dsimp only
      rw [if_neg (by simpa [List.isEmpty_iff] using hne)]
      have hfix : ∀ r ∈ pool, scoreHybrid st ur 1 r =
          { base := r, hybrid_score := r.similarity_score } := by
        intro r hr
        rw [← h] at hr
        obtain ⟨p, _, rfl⟩ := List.mem_map.mp hr
        simp only [scoreHybrid, mkRecEntry, one_mul, sub_self, zero_mul,
          add_zero, div_mul_cancel₀ _ (by norm_num : (100 : ℚ) ≠ 0)]
        rw [round2_round2]
      rw [List.map_congr_left hfix]
      have hpw : pool.Pairwise
          (fun x y : RecEntry => y.similarity_score ≤ x.similarity_score) := by
        rw [← h]; exact rec_entries_pairwise st idx (k * 3)
      have hsorted :
          (pool.map (fun r =>
            ({ base := r, hybrid_score := r.similarity_score } : HybridEntry))).Pairwise
            hybDescLe :=
        List.Pairwise.map _ (fun a b hab => hab) hpw
      rw [List.Sorted.insertionSort_eq hsorted, ← List.map_take]

/-- Counterexample for C4 as frozen: on the one-item corpus the only id is
present and `recommend` returns an empty-but-valid list, while hybrid
ranking returns NotFound — not the same sequence. -/
theorem hybrid_alpha_one_counterexample :
    (indexOf soloEngine 30).isSome = true ∧
    get_recommendations soloEngine 30 2 = some [] ∧
    hybrid_recommendations soloEngine 30 [] 2 1 = none := by
  decide

/-- Witness for C4 on the three-item corpus with `k = 1`. -/
theorem hybrid_alpha_one_witness :
    get_recommendations triEngine 10 1 =
      some (((get_recommendations triEngine 10 (1 * 3)).getD []).take 1) ∧
    hybrid_recommendations triEngine 10 [(20, 5)] 1 1 =
      some ((((get_recommendations triEngine 10 (1 * 3)).getD []).take 1).map
        (fun r => { base := r, hybrid_score := r.similarity_score })) :=
  hybrid_alpha_one triEngine 10 [(20, 5)] 1
    ((get_recommendations triEngine 10 (1 * 3)).getD [])
    (by decide) (by decide)

/-- The spec's formulation of the collaborative boost (§4.4 step 3): sum of
similarities to the liked items found in the corpus minus half the sum of
similarities to the disliked items found in the corpus; absent preference
ids are skipped. -/
def boostSpec (st : Engine) (c : Int) (ur : List (Int × ℚ)) : ℚ :=
  match indexOf st c with
  | none => 0
  | some ci =>
      (((liked_ids ur).filter (fun i => (indexOf st i).isSome)).map
        (fun i => simAt st ci ((indexOf st i).getD 0))).sum
      - (1 / 2) *
        (((disliked_ids ur).filter (fun i => (indexOf st i).isSome)).map
          (fun i => simAt st ci ((indexOf st i).getD 0))).sum

theorem foldl_add_present (st : Engine) (ri : Nat) (ids : List Int) (a : ℚ) :
    (ids.foldl (fun acc lid =>
      match indexOf st lid with
      | some lidx => acc + simAt st ri lidx
      | none => acc) a) =
    a + ((ids.filter (fun i => (indexOf st i).isSome)).map
          (fun i => simAt st ri ((indexOf st i).getD 0))).sum := by
  induction ids generalizing a with
  | nil => simp
  | cons i t ih =>
      cases hi : indexOf st i with
      | none => simp [hi, ih]
      | some lidx => simp [hi, ih, add_assoc]

theorem foldl_sub_present (st : Engine) (ri : Nat) (ids : List Int) (a : ℚ) :
    (ids.foldl (fun acc did =>
      match indexOf st did with
      | some didx => acc - simAt st ri didx * (5 / 10)
      | none => acc) a) =
    a - ((ids.filter (fun i => (indexOf st i).isSome)).map
          (fun i => simAt st ri ((indexOf st i).getD 0))).sum * (5 / 10) := by
  induction ids generalizing a with
  | nil => simp
  | cons i t ih =>
      cases hi : indexOf st i with
      | none => simp [hi, ih]
      | some didx => simp [hi, ih]; ring

/-- The imperative accumulation of `collab_boost` computes the spec's
two-sum formula. -/
theorem collab_boost_eq_boostSpec (st : Engine) (c : Int)
    (ur : List (Int × ℚ)) : collab_boost st c ur = boostSpec st c ur := by
  unfold collab_boost boostSpec
  cases hc : indexOf st c with
  | none => rfl
  | some ci =>
      dsimp only
      rw [foldl_sub_present, foldl_add_present]
      ring

/-- C5.  For every candidate in the `3k` content pool, the reported hybrid
score is (the rounded percentage of)
`alpha * contentScore + (1 - alpha) * max 0 boost` with
`contentScore` the 0–1 content similarity from the pool entry and `boost`
the liked-sum minus half the disliked-sum over the preference items present
in the corpus, absent ids skipped; the returned ranking is exactly the
stable descending sort of these scored candidates truncated to `k`. -/
theorem hybrid_score_formula (st : Engine) (movie_id : Int)
    (ur : List (Int × ℚ)) (k : Nat) (alpha : ℚ) (pool : List RecEntry)
    (h : get_recommendations st movie_id (k * 3) = some pool)
    (hne : pool ≠ []) :
    hybrid_recommendations st movie_id ur k alpha =
      some (((pool.map (scoreHybrid st ur alpha)).insertionSort hybDescLe).take k) ∧
    ∀ r ∈ pool, (scoreHybrid st ur alpha r).hybrid_score =
      round2 ((alpha * (r.similarity_score / 100) +
        (1 - alpha) * max 0 (boostSpec st r.id ur)) * 100) := by
  constructor
  · unfold hybrid_recommendations
    rw [h]
    dsimp only
    rw [if_neg (by simpa [List.isEmpty_iff] using hne)]
  · intro r _
    simp only [scoreHybrid, collab_boost_eq_boostSpec]

/-- Witness for C5 on the three-item corpus with a liked id (`20`), a
disliked id (`30`) and an absent id (`99`), `alpha = 7/10`. -/
theorem hybrid_score_formula_witness :
    hybrid_recommendations triEngine 10 [(20, 5), (99, 4), (30, 1)] 1 (7 / 10) =
      some (((((get_recommendations triEngine 10 (1 * 3)).getD []).map
        (scoreHybrid triEngine [(20, 5), (99, 4), (30, 1)] (7 / 10))).insertionSort
          hybDescLe).take 1) ∧
    ∀ r ∈ (get_recommendations triEngine 10 (1 * 3)).getD [],
      (scoreHybrid triEngine [(20, 5), (99, 4), (30, 1)] (7 / 10) r).hybrid_score =
        round2 ((7 / 10 * (r.similarity_score / 100) +
          (1 - 7 / 10) * max 0 (boostSpec triEngine r.id
            [(20, 5), (99, 4), (30, 1)])) * 100) :=
  hybrid_score_formula triEngine 10 [(20, 5), (99, 4), (30, 1)] 1 (7 / 10)
    ((get_recommendations triEngine 10 (1 * 3)).getD [])
    (by decide) (by decide)

/-! ### C6: title search -/

/-- Case-folded character list of a string. -/
def lowerChars (s : String) : List Char :=
  s.data.map Char.toLower

/-- The spec's selection predicate: `q` occurs in `s` as a case-insensitive
substring. -/
def isSubstringCI (q s : String) : Bool :=
  ((lowerChars s).tails).any (fun t => (lowerChars q).isPrefixOf t)

theorem matchHere_lit (qs cs : List Char) :
    matchHere (qs.map RTok.lit) cs =
      (qs.map Char.toLower).isPrefixOf (cs.map Char.toLower) := by
  induction qs generalizing cs with
  | nil => simp [matchHere, List.isPrefixOf]
  | cons q qt ih =>
      cases cs with
      | nil => simp [matchHere, List.isPrefixOf]
      | cons c ct => simp [matchHere, tokMatch, List.isPrefixOf, ih]

theorem reSearch_lit (qs cs : List Char) :
    reSearch (qs.map RTok.lit) cs =
      ((cs.map Char.toLower).tails).any
        (fun t => (qs.map Char.toLower).isPrefixOf t) := by
  induction cs with
  | nil => simp [reSearch, matchHere_lit]
  | cons c ct ih => simp [reSearch, matchHere_lit, ih]

theorem parsePat_lit (q : String) (hq : ∀ c ∈ q.data, c ≠ '.') :
    parsePat q = q.data.map RTok.lit := by
  unfold parsePat
  exact List.map_congr_left (fun c hc => by simp [hq c hc])

/-- Counterexample for C6 as frozen: the query `a.c` (a regular expression
with a metacharacter) selects the title `abc` — the reported total is `1`
although `a.c` is not a case-insensitive substring of any title (the
substring-match count is `0`). -/
theorem search_regex_counterexample :
    (search_movies abcEngine "a.c" 20 0).2 = 1 ∧
    (abcEngine.movies.filter (fun m => isSubstringCI "a.c" m.title)).length = 0 := by
  decide

/-- C6 (amended).  For every query free of regex metacharacters (in the
modelled fragment: no `.`), `search_movies` selects exactly the titles
containing the query as a case-insensitive substring, pages are contiguous
slices, and the reported total is the number of matches before
pagination. -/
theorem search_is_substring (st : Engine) (query : String) (limit offset : Nat)
    (hq : ∀ c ∈ query.data, c ≠ '.') :
    search_movies st query limit offset =
      (format_movies
        (((st.movies.filter (fun m => isSubstringCI query m.title)).drop offset).take limit),
       (st.movies.filter (fun m => isSubstringCI query m.title)).length) := by
  unfold search_movies
  have hpt : ∀ m ∈ st.movies,
      py_contains query m.title = isSubstringCI query m.title := by
    intro m _
    unfold py_contains isSubstringCI lowerChars
    rw [parsePat_lit query hq, reSearch_lit]
  rw [List.filter_congr hpt]

/-- Witness for C6 on the three-item corpus: the query `b` (no
metacharacters) case-insensitively matches exactly the title `B`. -/
theorem search_is_substring_witness :
    (∀ c ∈ ("b" : String).data, c ≠ '.') ∧
    search_movies triEngine "b" 20 0 =
      (format_movies
        (((triEngine.movies.filter (fun m => isSubstringCI "b" m.title)).drop 0).take 20),
       (triEngine.movies.filter (fun m => isSubstringCI "b" m.title)).length) :=
  ⟨by decide, search_is_substring triEngine "b" 20 0 (by decide)⟩

/-! ### C7: pagination invariant -/

/-- Concatenation of the pages at offsets `0, limit, 2·limit, …` until the
reported total is exhausted. -/
def pagesConcat (fetch : Nat → List β) (limit total : Nat) : List β :=
  ((List.range ((total + limit - 1) / limit)).map (fun p => fetch (p * limit))).flatten

/-- Concatenating the `L`-sized contiguous slices of a list reproduces the
list. -/
theorem flatten_slices (l : List β) (L : Nat) (hL : 0 < L) :
    ((List.range ((l.length + L - 1) / L)).map
      (fun p => (l.drop (p * L)).take L)).flatten = l := by
  generalize hn : (l.length + L - 1) / L = n
  induction n generalizing l with
  | zero =>
      have hlt : l.length + L - 1 < L := (Nat.div_eq_zero_iff hL).mp hn
      have : l.length = 0 := by omega
      simp [List.eq_nil_of_length_eq_zero this]
  | succ n ih =>
      have hlen : l.length ≠ 0 := by
        intro h0
        rw [h0] at hn
        have : (0 + L - 1) / L = 0 := Nat.div_eq_of_lt (by omega)
        omega
      have hn' : ((l.drop L).length + L - 1) / L = n := by
        rw [List.length_drop]
        rcases Nat.lt_or_ge l.length L with hc | hc
        · have h1 : (l.length + L - 1) / L = 1 :=
            Nat.div_eq_of_lt_le (by omega) (by omega)
          have hn0 : n = 0 := by omega
          have hz : l.length - L = 0 := by omega
          rw [hz, hn0]
          exact Nat.div_eq_of_lt (by omega)
        · have heq : l.length + L - 1 = (l.length - L + L - 1) + L := by omega
          rw [heq, Nat.add_div_right _ hL] at hn
          omega
      have hpage : ∀ p ∈ List.range n,
          (fun q => (l.drop (q * L)).take L) (Nat.succ p) =
            ((l.drop L).drop (p * L)).take L := by
        intro p _
        have hmul : Nat.succ p * L = L + p * L := by
          rw [Nat.succ_mul]; omega
        dsimp only
        rw [hmul, List.drop_drop, Nat.add_comm]
      rw [List.range_succ_eq_map, List.map_cons, List.map_map,
        List.flatten_cons, Function.comp_def, List.map_congr_left hpage,
        ih _ hn']
      simp

/-- Any fetch function returning contiguous `L`-slices of a fixed list
satisfies the page-concatenation invariant. -/
theorem pagesConcat_eq (fetch : Nat → List β) (full : List β) (L : Nat)
    (hL : 0 < L) (hfetch : ∀ o, fetch o = (full.drop o).take L)
    (total : Nat) (htot : total = full.length) :
    pagesConcat fetch L total = full := by
  unfold pagesConcat
  rw [htot, List.map_congr_left (fun p _ => hfetch (p * L))]
  exact flatten_slices full L hL

/-- Two permutations of each other that are both pairwise in a relation
antisymmetric on their members are equal. -/
theorem eq_of_perm_of_pairwise {α : Type _} {R : α → α → Prop} :
    ∀ {l₁ l₂ : List α}, List.Perm l₁ l₂ → l₁.Pairwise R → l₂.Pairwise R →
      (∀ a b, a ∈ l₁ → b ∈ l₁ → R a b → R b a → a = b) → l₁ = l₂ := by
  intro l₁
  induction l₁ with
  | nil =>
      intro l₂ hp _ _ _
      have hlen : l₂.length = 0 := by simpa using hp.length_eq.symm
      exact (List.eq_nil_of_length_eq_zero hlen).symm
  | cons a t₁ ih =>
      intro l₂ hp h1 h2 hanti
      cases l₂ with
      | nil => have := hp.length_eq; simp at this
      | cons b t₂ =>
          have hab : a = b := by
            by_contra hne
            have ha2 : a ∈ b :: t₂ := hp.subset (List.mem_cons_self a t₁)
            have hb1 : b ∈ a :: t₁ := hp.symm.subset (List.mem_cons_self b t₂)
            have hat2 : a ∈ t₂ := by
              rcases List.mem_cons.mp ha2 with h | h
              · exact absurd h hne
              · exact h
            have hbt1 : b ∈ t₁ := by
              rcases List.mem_cons.mp hb1 with h | h
              · exact absurd h.symm hne
              · exact h
            have hRab : R a b := (List.pairwise_cons.mp h1).1 b hbt1
            have hRba : R b a := (List.pairwise_cons.mp h2).1 a hat2
            exact hne (hanti a b (List.mem_cons_self a t₁)
              (List.mem_cons_of_mem a hbt1) hRab hRba)
          subst hab
          have hp' : List.Perm t₁ t₂ := hp.cons_inv
          have htail := ih hp' (List.pairwise_cons.mp h1).2
            (List.pairwise_cons.mp h2).2
            (fun x y hx hy =>
              hanti x y (List.mem_cons_of_mem a hx) (List.mem_cons_of_mem a hy))
          rw [htail]

/-- When the key column has no duplicate values, the reversed stable
ascending sort coincides with the stable descending sort — i.e. the two tie
orders of `nlargest` cannot be told apart. -/
theorem sortValuesDesc_eq_sortDescBy (f : Movie → ℚ) (l : List Movie)
    (hnd : (l.map f).Nodup) : sortValuesDesc f l = sortDescBy f l := by
  have hinj := List.inj_on_of_nodup_map hnd
  refine eq_of_perm_of_pairwise (R := keyDescLe f) ?_ ?_ ?_ ?_
  · exact ((List.reverse_perm _).trans
      (List.perm_insertionSort (keyAscLe f) l)).trans
      (List.perm_insertionSort (keyDescLe f) l).symm
  · rw [sortValuesDesc, List.pairwise_reverse]
    exact List.sorted_insertionSort (keyAscLe f) l
  · exact List.sorted_insertionSort (keyDescLe f) l
  · intro a b ha hb hR1 hR2
    have ha' : a ∈ l := by
      rw [sortValuesDesc, List.mem_reverse, List.mem_insertionSort] at ha
      exact ha
    have hb' : b ∈ l := by
      rw [sortValuesDesc, List.mem_reverse, List.mem_insertionSort] at hb
      exact hb
    exact hinj ha' hb' (le_antisymm hR2 hR1)

/-- With pairwise-distinct popularity values a popular page is a contiguous
slice of the stable descending-popularity order (the two `nlargest` paths
then agree). -/
theorem popular_page_nodup (st : Engine)
    (hnd : (st.movies.map (·.popularity)).Nodup) (L o : Nat) :
    (get_popular_movies st L o).1 =
      ((format_movies (sortDescBy (·.popularity) st.movies)).drop o).take L := by
  unfold get_popular_movies nlargest
  by_cases hc : o + L < st.movies.length
  · rw [if_pos hc, List.drop_take, Nat.add_sub_cancel_left, List.take_take,
      Nat.min_self]
    simp [format_movies]
  · rw [if_neg hc, sortValuesDesc_eq_sortDescBy _ _ hnd, List.drop_take,
      Nat.add_sub_cancel_left, List.take_take, Nat.min_self]
    simp [format_movies]

/-- With pairwise-distinct rating values among the vote-qualified rows a
top-rated page is a contiguous slice of the stable descending-rating
order. -/
theorem top_rated_page_nodup (st : Engine) (min_votes : Int)
    (hnd : ((st.movies.filter (fun m => decide (min_votes ≤ m.vote_count))).map
      (·.vote_average)).Nodup) (L o : Nat) :
    (get_top_rated_movies st L min_votes o).1 =
      ((format_movies (sortDescBy (·.vote_average)
          (st.movies.filter (fun m => decide (min_votes ≤ m.vote_count))))).drop o).take L := by
  unfold get_top_rated_movies nlargest
  dsimp only
  by_cases hc : o + L <
      (st.movies.filter (fun m => decide (min_votes ≤ m.vote_count))).length
  · rw [if_pos hc, List.drop_take, Nat.add_sub_cancel_left, List.take_take,
      Nat.min_self]
    simp [format_movies]
  · rw [if_neg hc, sortValuesDesc_eq_sortDescBy _ _ hnd, List.drop_take,
      Nat.add_sub_cancel_left, List.take_take, Nat.min_self]
    simp [format_movies]

/-- A search page is a contiguous slice of the matching rows in corpus
order. -/
theorem search_page (st : Engine) (q : String) (L o : Nat) :
    (search_movies st q L o).1 =
      ((format_movies (st.movies.filter (fun m => py_contains q m.title))).drop o).take L := by
  unfold search_movies
  simp [format_movies]

/-- Changing only the pagination parameters leaves the filtered and sorted
row sets unchanged. -/
theorem pageParams_genre (p : FilterParams) (L o : Nat) :
    ({ p with limit := L, offset := o } : FilterParams).genre = p.genre := rfl

theorem pageParams_min_rating (p : FilterParams) (L o : Nat) :
    ({ p with limit := L, offset := o } : FilterParams).min_rating = p.min_rating := rfl

theorem pageParams_max_rating (p : FilterParams) (L o : Nat) :
    ({ p with limit := L, offset := o } : FilterParams).max_rating = p.max_rating := rfl

theorem pageParams_year_from (p : FilterParams) (L o : Nat) :
    ({ p with limit := L, offset := o } : FilterParams).year_from = p.year_from := rfl

theorem pageParams_year_to (p : FilterParams) (L o : Nat) :
    ({ p with limit := L, offset := o } : FilterParams).year_to = p.year_to := rfl

theorem pageParams_min_runtime (p : FilterParams) (L o : Nat) :
    ({ p with limit := L, offset := o } : FilterParams).min_runtime = p.min_runtime := rfl

theorem pageParams_max_runtime (p : FilterParams) (L o : Nat) :
    ({ p with limit := L, offset := o } : FilterParams).max_runtime = p.max_runtime := rfl

theorem pageParams_sort_by (p : FilterParams) (L o : Nat) :
    ({ p with limit := L, offset := o } : FilterParams).sort_by = p.sort_by := rfl

theorem pageParams_order (p : FilterParams) (L o : Nat) :
    ({ p with limit := L, offset := o } : FilterParams).order = p.order := rfl

theorem pageParams_limit (p : FilterParams) (L o : Nat) :
    ({ p with limit := L, offset := o } : FilterParams).limit = L := rfl

theorem pageParams_offset (p : FilterParams) (L o : Nat) :
    ({ p with limit := L, offset := o } : FilterParams).offset = o := rfl

theorem filteredOf_pageParams (st : Engine) (p : FilterParams) (L o : Nat) :
    filteredOf st { p with limit := L, offset := o } = filteredOf st p := by
  simp only [filteredOf, pageParams_genre, pageParams_min_rating,
    pageParams_max_rating, pageParams_year_from, pageParams_year_to,
    pageParams_min_runtime, pageParams_max_runtime]

theorem sortedFilteredOf_pageParams (st : Engine) (p : FilterParams) (L o : Nat) :
    sortedFilteredOf st { p with limit := L, offset := o } = sortedFilteredOf st p := by
  simp only [sortedFilteredOf, pageParams_sort_by, pageParams_order,
    filteredOf_pageParams]

/-- A filter page is a contiguous slice of the sorted filtered rows. -/
theorem filter_page (st : Engine) (p : FilterParams) (L o : Nat) :
    (filter_movies st { p with limit := L, offset := o }).1 =
      ((format_movies (sortedFilteredOf st p)).drop o).take L := by
  simp only [filter_movies, sortedFilteredOf_pageParams, pageParams_limit,
    pageParams_offset]
  simp [format_movies]

/-- Counterexample for C7 as frozen: four items of equal popularity,
`limit = 2`.  Page 0 comes from the `nlargest(2)` fast path (ties ascending
by position: items 1, 2); page 1 from the `nlargest(4)` fallback
`sort_values(ascending=False)` (ties descending: order 4, 3, 2, 1), whose
slice `[2:4]` is items 2, 1.  The concatenation repeats items 1 and 2 and
never lists items 3 and 4, although the reported total is 4. -/
theorem pagination_tied_counterexample :
    (0 : Nat) < 2 ∧
    ¬ ((pagesConcat (fun o => (get_popular_movies tiedEngine 2 o).1) 2
          (get_popular_movies tiedEngine 2 0).2).map FmtMovie.id).Nodup ∧
    (3 : Int) ∈ tiedEngine.movies.map Movie.id ∧
    (3 : Int) ∉ ((pagesConcat (fun o => (get_popular_movies tiedEngine 2 o).1) 2
          (get_popular_movies tiedEngine 2 0).2).map FmtMovie.id) ∧
    (get_popular_movies tiedEngine 2 0).2 = tiedEngine.movies.length := by
  decide

/-- C7 (amended).  For every page size `L > 0`, concatenating the pages at
offsets `0, L, 2L, …` (until the reported total is exhausted) reproduces
the full ordered result set with no duplicates or gaps for search and
filter unconditionally, and for popular and top-rated *provided the
relevant key column (popularity, resp. vote_average of the vote-qualified
rows) has pairwise-distinct values* — the amendment the counterexample
forces, since `nlargest` orders ties ascending by position on its
`n < len` path but descending on its `n ≥ len` `sort_values` fallback,
which the last page always takes.  The reported total is in every case
that set's size: the corpus size for popular, the vote-qualified count for
top-rated, the match count for search, the filtered count for filter. -/
theorem pagination_invariant_distinct_keys (st : Engine) (L : Nat)
    (hL : 0 < L) (min_votes : Int) (query : String) (p : FilterParams) :
    ((st.movies.map (·.popularity)).Nodup →
      pagesConcat (fun o => (get_popular_movies st L o).1) L
          (get_popular_movies st L 0).2 =
        format_movies (sortDescBy (·.popularity) st.movies)) ∧
    (get_popular_movies st L 0).2 = st.movies.length ∧
    (((st.movies.filter (fun m => decide (min_votes ≤ m.vote_count))).map
        (·.vote_average)).Nodup →
      pagesConcat (fun o => (get_top_rated_movies st L min_votes o).1) L
          (get_top_rated_movies st L min_votes 0).2 =
        format_movies (sortDescBy (·.vote_average)
          (st.movies.filter (fun m => decide (min_votes ≤ m.vote_count))))) ∧
    (get_top_rated_movies st L min_votes 0).2 =
      (st.movies.filter (fun m => decide (min_votes ≤ m.vote_count))).length ∧
    (pagesConcat (fun o => (search_movies st query L o).1) L
        (search_movies st query L 0).2 =
      format_movies (st.movies.filter (fun m => py_contains query m.title))) ∧
    (search_movies st query L 0).2 =
      (st.movies.filter (fun m => py_contains query m.title)).length ∧
    (pagesConcat (fun o => (filter_movies st { p with limit := L, offset := o }).1) L
        (filter_movies st { p with limit := L, offset := 0 }).2 =
      format_movies (sortedFilteredOf st p)) ∧
    (filter_movies st { p with limit := L, offset := 0 }).2 =
      (filteredOf st p).length := by
  refine ⟨?_, rfl, ?_, rfl, ?_, rfl, ?_, ?_⟩
  · intro hnd
    exact pagesConcat_eq _ _ L hL (popular_page_nodup st hnd L) _
      (by simp [get_popular_movies, format_movies, sortDescBy,
        List.length_insertionSort])
  · intro hnd
    exact pagesConcat_eq _ _ L hL (top_rated_page_nodup st min_votes hnd L) _
      (by simp [get_top_rated_movies, format_movies, sortDescBy,
        List.length_insertionSort])
  · exact pagesConcat_eq _ _ L hL (search_page st query L) _
      (by simp [search_movies, format_movies])
  · exact pagesConcat_eq _ _ L hL (filter_page st p L) _
      (by simp [filter_movies, format_movies, sortedFilteredOf, sortValues,
        List.length_insertionSort, filteredOf_pageParams])
  · show (filter_movies st { p with limit := L, offset := 0 }).2 =
      (filteredOf st p).length
    have h2 : (filter_movies st { p with limit := L, offset := 0 }).2 =
        (filteredOf st { p with limit := L, offset := 0 }).length := rfl
    rw [h2, filteredOf_pageParams]

/-- Witness for C7 on the three-item corpus (`L = 1`): its popularity and
rating columns are duplicate-free, so the popular and top-rated
implications apply. -/
theorem pagination_invariant_distinct_keys_witness :
    pagesConcat (fun o => (get_popular_movies triEngine 1 o).1) 1
        (get_popular_movies triEngine 1 0).2 =
      format_movies (sortDescBy (·.popularity) triEngine.movies) ∧
    pagesConcat (fun o => (get_top_rated_movies triEngine 1 50 o).1) 1
        (get_top_rated_movies triEngine 1 50 0).2 =
      format_movies (sortDescBy (·.vote_average)
        (triEngine.movies.filter (fun m => decide ((50 : Int) ≤ m.vote_count)))) :=
  ⟨(pagination_invariant_distinct_keys triEngine 1 (by decide) 50 "b" {}).1
      (by decide),
   (pagination_invariant_distinct_keys triEngine 1 (by decide) 50 "b"
      {}).2.2.1 (by decide)⟩

/-! ### C2: order, tie-break and exhaustiveness of `get_recommendations` -/

theorem fst_lt_of_mem_enum {α : Type _} {l : List α} {p : Nat × α}
    (hp : p ∈ l.enum) : p.1 < l.length := by
  obtain ⟨k, hk, hEq⟩ := List.mem_iff_getElem.mp hp
  rw [List.getElem_enum] at hEq
  rw [← hEq]
  simpa using hk

theorem snd_eq_of_mem_enum {l : List ℚ} {p : Nat × ℚ} (hp : p ∈ l.enum) :
    p.2 = l.getD p.1 0 := by
  obtain ⟨k, hk, hEq⟩ := List.mem_iff_getElem.mp hp
  rw [List.getElem_enum] at hEq
  have hk' : k < l.length := by simpa using hk
  rw [← hEq]
  exact (List.getD_eq_getElem l 0 hk').symm

theorem indexOf_lt_length {st : Engine} {movie_id : Int} {idx : Nat}
    (h : indexOf st movie_id = some idx) : idx < st.movies.length := by
  unfold indexOf at h
  cases hf : (st.movies.enum).find? (fun p => p.2.id == movie_id) with
  | none => rw [hf] at h; simp at h
  | some p =>
      rw [hf] at h
      simp only [Option.map_some', Option.some.injEq] at h
      have hlt := fst_lt_of_mem_enum (List.mem_of_find?_eq_some hf)
      omega

/-- The tags of an enumeration strictly increase. -/
theorem enum_pairwise_fst_lt {α : Type _} (l : List α) :
    l.enum.Pairwise (fun p q => p.1 < q.1) := by
  rw [List.pairwise_iff_getElem]
  intro i j hi hj hij
  rw [List.getElem_enum, List.getElem_enum]
  simpa using hij

/-- In a list whose `r`-order is asymmetric and pairwise, any two members
in relation occur as a two-element sublist. -/
theorem pair_sublist_of_pairwise {α : Type _} {r : α → α → Prop}
    (hasym : ∀ x y, r x y → ¬ r y x) :
    ∀ {l : List α}, l.Pairwise r → ∀ {a b : α}, a ∈ l → b ∈ l → r a b →
      List.Sublist [a, b] l := by
  intro l
  induction l with
  | nil => intro _ a b ha; cases ha
  | cons c t ih =>
      intro h a b ha hb hr
      rcases List.mem_cons.mp ha with rfl | ha'
      · rcases List.mem_cons.mp hb with rfl | hb'
        · exact absurd hr (hasym _ _ hr)
        · exact (List.cons_sublist_cons).mpr (List.singleton_sublist.mpr hb')
      · rcases List.mem_cons.mp hb with rfl | hb'
        · have := (List.pairwise_cons.mp h).1 a ha'
          exact absurd this (hasym _ _ hr)
        · exact List.Sublist.cons c
            (ih (List.pairwise_cons.mp h).2 ha' hb' hr)

/-- A duplicate-free list cannot contain the same two distinct-position
elements in both orders. -/
theorem not_pair_sublist_both {α : Type _} {t : List α} (hnd : t.Nodup)
    {x y : α} (h1 : List.Sublist [x, y] t) (h2 : List.Sublist [y, x] t) : False := by
  obtain ⟨is1, heq1, hlt1⟩ := List.sublist_eq_map_getElem h1
  obtain ⟨is2, heq2, hlt2⟩ := List.sublist_eq_map_getElem h2
  rcases is1 with _ | ⟨i, _ | ⟨j, rest1⟩⟩
  · simp at heq1
  · simp at heq1
  · cases rest1 with
    | cons _ _ => simp at heq1
    | nil =>
        rcases is2 with _ | ⟨a, _ | ⟨b, rest2⟩⟩
        · simp at heq2
        · simp at heq2
        · cases rest2 with
          | cons _ _ => simp at heq2
          | nil =>
              simp only [List.map_cons, List.map_nil, List.cons.injEq,
                and_true] at heq1 heq2
              have hij : i < j := by
                have := List.pairwise_cons.mp hlt1
                exact this.1 j (by simp)
              have hab : a < b := by
                have := List.pairwise_cons.mp hlt2
                exact this.1 b (by simp)
              have hib : (i : Nat) = (b : Nat) :=
                (List.Nodup.getElem_inj_iff hnd).mp (heq1.1.symm.trans heq2.2)
              have hja : (j : Nat) = (a : Nat) :=
                (List.Nodup.getElem_inj_iff hnd).mp (heq1.2.symm.trans heq2.1)
              have hij' : (i : Nat) < (j : Nat) := hij
              have hab' : (a : Nat) < (b : Nat) := hab
              omega

/-- Stability of the modelled sort: among equal similarities the internal
index order of the input enumeration is preserved, so ties are broken by
ascending internal index. -/
theorem sortedSimScores_tie_stable (st : Engine) (idx : Nat) :
    (sortedSimScores st idx).Pairwise (fun a b => a.2 = b.2 → a.1 ≤ b.1) := by
  have htags : ((simRow st idx).enum).Pairwise
      (fun p q : Nat × ℚ => p.1 < q.1) := enum_pairwise_fst_lt _
  have hndl : ((simRow st idx).enum).Nodup :=
    htags.imp (fun {a b} h => by
      intro he; rw [he] at h; exact lt_irrefl _ h)
  have hnd : (sortedSimScores st idx).Nodup :=
    ((List.perm_insertionSort simDescLe _).nodup_iff).mpr hndl
  rw [List.pairwise_iff_forall_sublist]
  intro a b hab heq
  by_contra hlt'
  push_neg at hlt'
  have ha : a ∈ (simRow st idx).enum :=
    (List.mem_insertionSort simDescLe).mp (hab.subset (by simp))
  have hb : b ∈ (simRow st idx).enum :=
    (List.mem_insertionSort simDescLe).mp (hab.subset (by simp))
  have hba_l : List.Sublist [b, a] ((simRow st idx).enum) :=
    pair_sublist_of_pairwise (fun x y h => Nat.lt_asymm h) htags hb ha hlt'
  have hba : List.Sublist [b, a] (sortedSimScores st idx) :=
    List.pair_sublist_insertionSort (le_of_eq heq) hba_l
  exact not_pair_sublist_both hnd hab hba

/-- When the query index holds the strict maximum of its similarity row,
the sorted list starts with the query pair, and the tail enumerates every
other internal index. -/
theorem sorted_head_idx (row : List ℚ) (idx : Nat) (hidx : idx < row.length)
    (hself : ∀ j, j < row.length → j ≠ idx → row.getD j 0 < row.getD idx 0) :
    ∃ tl, (row.enum).insertionSort simDescLe = (idx, row.getD idx 0) :: tl ∧
      (tl.map Prod.fst).Perm
        ((List.range row.length).filter (fun j => j != idx)) := by
  have hperm : List.Perm ((row.enum).insertionSort simDescLe) (row.enum) :=
    List.perm_insertionSort _ _
  have hlen : ((row.enum).insertionSort simDescLe).length = row.length := by
    rw [hperm.length_eq, List.enum_length]
  have hsorted : ((row.enum).insertionSort simDescLe).Pairwise simDescLe :=
    List.sorted_insertionSort _ _
  have hne : (row.enum).insertionSort simDescLe ≠ [] := by
    intro h0; rw [h0] at hlen; simp at hlen; omega
  obtain ⟨hd, tl, hout⟩ := List.exists_cons_of_ne_nil hne
  have hhd_mem : hd ∈ row.enum := hperm.subset (hout ▸ List.mem_cons_self hd tl)
  have hd1lt : hd.1 < row.length := fst_lt_of_mem_enum hhd_mem
  have hd2 : hd.2 = row.getD hd.1 0 := snd_eq_of_mem_enum hhd_mem
  have hidxmem : (idx, row.getD idx 0) ∈ row.enum := by
    have hb : idx < row.enum.length := by simpa using hidx
    have hmem := List.getElem_mem hb
    rw [List.getElem_enum] at hmem
    rw [List.getD_eq_getElem row 0 hidx]
    exact hmem
  have hhd1 : hd.1 = idx := by
    by_contra hne'
    have hlt := hself hd.1 hd1lt hne'
    have hmem : (idx, row.getD idx 0) ∈ (row.enum).insertionSort simDescLe :=
      hperm.mem_iff.mpr hidxmem
    rw [hout] at hmem
    rcases List.mem_cons.mp hmem with heq | htl
    · exact hne' (by rw [show hd = (idx, row.getD idx 0) from heq.symm])
    · have hrel := (List.pairwise_cons.mp (hout ▸ hsorted)).1 _ htl
      have : row.getD idx 0 ≤ row.getD hd.1 0 := by
        simpa [simDescLe, hd2] using hrel
      exact absurd this (not_le.mpr hlt)
  have hhd : hd = (idx, row.getD idx 0) := by
    have h2 : hd.2 = row.getD idx 0 := by rw [hd2, hhd1]
    exact Prod.ext_iff.mpr ⟨hhd1, h2⟩
  refine ⟨tl, by rw [hout, hhd], ?_⟩
  have htagperm : List.Perm (((row.enum).insertionSort simDescLe).map Prod.fst)
      (List.range row.length) := by
    have hm := hperm.map Prod.fst
    rwa [List.enum_map_fst] at hm
  have htagnodup : (((row.enum).insertionSort simDescLe).map Prod.fst).Nodup :=
    (htagperm.nodup_iff).mpr (List.nodup_range _)
  have hmapcons : ((row.enum).insertionSort simDescLe).map Prod.fst =
      idx :: tl.map Prod.fst := by
    rw [hout, List.map_cons, hhd]
  rw [hmapcons] at htagperm htagnodup
  obtain ⟨hnotmem, hnd_tl⟩ := List.nodup_cons.mp htagnodup
  have hnd_fl : ((List.range row.length).filter (fun j => j != idx)).Nodup :=
    (List.nodup_range _).filter _
  rw [List.perm_ext_iff_of_nodup hnd_tl hnd_fl]
  intro j
  constructor
  · intro hj
    have hjr : j ∈ List.range row.length :=
      htagperm.subset (List.mem_cons_of_mem _ hj)
    have hjne : j ≠ idx := by
      intro he; rw [he] at hj; exact hnotmem hj
    simp [List.mem_filter, hjr, hjne]
  · intro hj
    rcases List.mem_filter.mp hj with ⟨hjr, hjne⟩
    have : j ∈ idx :: tl.map Prod.fst := htagperm.mem_iff.mpr hjr
    rcases List.mem_cons.mp this with rfl | h'
    · simp at hjne
    · exact h'

/-- Counterexample for C2 as frozen: on the two-item corpus with identical
similarity rows, `k = 5` exceeds the corpus size, so "all available
neighbors" of item `20` is exactly item `10` — but the code returns item
`20` itself (its tie sorts the duplicate first and the slice `[1:6]` drops
the duplicate instead of the query item). -/
theorem neighbors_small_corpus_counterexample :
    dupEngine.movies.length < 5 + 1 ∧
    (dupEngine.movies.filter (fun m => !(m.id == 20))).map Movie.id = [10] ∧
    ((get_recommendations dupEngine 20 5).getD []).map RecEntry.id ≠ [10] := by
  decide

/-- C2 (amended).  For an id present in the index with internal position
`idx` and a well-formed similarity row, `recommend(id, k)` (i) formats the
pairs selected from the stable descending sort, (ii) returns at most `k`
entries, (iii) sorted by non-increasing (rounded) similarity, (iv) with
equal-raw-similarity pairs in ascending internal index order; and (v)
*provided no other item ties the query item's self-similarity* (the
amendment the counterexample forces), a corpus of fewer than `k + 1` items
yields exactly the internal indices of all other items. -/
theorem neighbors_sorted_bounded (st : Engine) (movie_id : Int) (k idx : Nat)
    (h1 : indexOf st movie_id = some idx)
    (hrow : (simRow st idx).length = st.movies.length) :
    get_recommendations st movie_id k =
      some ((((sortedSimScores st idx).drop 1).take k).map (mkRecEntry st)) ∧
    (((sortedSimScores st idx).drop 1).take k).length ≤ k ∧
    ((((sortedSimScores st idx).drop 1).take k).map (mkRecEntry st)).Pairwise
      (fun x y => y.similarity_score ≤ x.similarity_score) ∧
    (((sortedSimScores st idx).drop 1).take k).Pairwise
      (fun a b => a.2 = b.2 → a.1 ≤ b.1) ∧
    ((∀ j, j < (simRow st idx).length → j ≠ idx →
        simAt st idx j < simAt st idx idx) →
      st.movies.length < k + 1 →
      List.Perm ((((sortedSimScores st idx).drop 1).take k).map Prod.fst)
        ((List.range st.movies.length).filter (fun j => j != idx))) := by
  refine ⟨by simp [get_recommendations, h1], List.length_take_le _ _,
    rec_entries_pairwise st idx k,
    List.Pairwise.sublist
      ((List.take_sublist _ _).trans (List.drop_sublist _ _))
      (sortedSimScores_tie_stable st idx), ?_⟩
  intro hself hsmall
  have hidx : idx < st.movies.length := indexOf_lt_length h1
  have hidxrow : idx < (simRow st idx).length := by rw [hrow]; exact hidx
  obtain ⟨tl, hout, hperm⟩ :=
    sorted_head_idx (simRow st idx) idx hidxrow
      (fun j hj hne => hself j hj hne)
  have hss : sortedSimScores st idx = (idx, (simRow st idx).getD idx 0) :: tl :=
    hout
  have hlenss : (sortedSimScores st idx).length = (simRow st idx).length := by
    simp [sortedSimScores, List.length_insertionSort, List.enum_length]
  rw [hss] at hlenss
  simp only [List.length_cons] at hlenss
  have htllen : tl.length ≤ k := by omega
  rw [hss, show (((idx, (simRow st idx).getD idx 0) :: tl).drop 1) = tl from rfl,
    List.take_of_length_le htllen]
  rw [hrow] at hperm
  exact hperm

/-- Witness for C2 on the three-item corpus: querying item `10` (internal
index `0`, strict self-maximum row) with `k = 5 > 3` returns exactly the
other two internal indices. -/
theorem neighbors_sorted_bounded_witness :
    List.Perm ((((sortedSimScores triEngine 0).drop 1).take 5).map Prod.fst)
      ((List.range triEngine.movies.length).filter (fun j => j != 0)) :=
  (neighbors_sorted_bounded triEngine 10 5 0 (by decide)
    (by decide)).2.2.2.2 (by decide) (by decide)

end MovieRec
